import Mathlib

/-!
Verification of the Create-Map-IDW station-interpolation pipeline.

Shallow embedding of the numerical core of the repository:
`Main/utils.py` (categorizers, IDW kernel, verification metrics,
region counting), `Main/map_creation.py` (fine-grid builder,
regular-grid resampling, interpolation-path routing, clipping
context) and `Main/hth_processor.py` (empty-clip fallback of the
HTH scatter path).  Machine floats are modelled by exact rationals;
the IEEE non-finite results (NaN or infinity) that Python produces
on division by zero are modelled by `Option.none`.
-/

namespace CreateMapIDW

/-! ## Categorizers (`Main/utils.py`, `categorize_ch` / `categorize_index`)

A Python argument can be `None`, a float NaN, a non-numeric object or a
number; the numeric case is modelled by an exact rational. -/

/-- A Python value passed to the categorizers: `None`, float NaN, a
non-numeric object, or a number (modelled as an exact rational). -/
inductive PValue where
  | null : PValue
  | nan : PValue
  | nonNumeric : PValue
  | num : ℚ → PValue
deriving DecidableEq, Repr

/-- `categorize_ch` from `Main/utils.py` (lines 137-186): fallback
strategy fixed to lowest; ranges 1:(0,100), 2:(101,300), 3:(301,500),
4:(501,inf); negative numbers return 1; a number matching no range
falls through to the terminal `return 4`. -/
def categorize_ch : PValue → ℕ
  | PValue.null => 1
  | PValue.nan => 1
  | PValue.nonNumeric => 1
  | PValue.num v =>
    if v < 0 then 1
    else if 0 ≤ v ∧ v ≤ 100 then 1
    else if 101 ≤ v ∧ v ≤ 300 then 2
    else if 301 ≤ v ∧ v ≤ 500 then 3
    else if 501 ≤ v then 4
    else 4

/-- `categorize_index` from `Main/utils.py` (lines 189-243): fallback
strategy fixed to lowest; nine ranges (0,20), (21,50), (51,100),
(101,150), (151,200), (201,300), (301,400), (401,500), (501,inf);
negative numbers return 1; a number matching no range falls through to
the terminal `return 9`. -/
def categorize_index : PValue → ℕ
  | PValue.null => 1
  | PValue.nan => 1
  | PValue.nonNumeric => 1
  | PValue.num v =>
    if v < 0 then 1
    else if 0 ≤ v ∧ v ≤ 20 then 1
    else if 21 ≤ v ∧ v ≤ 50 then 2
    else if 51 ≤ v ∧ v ≤ 100 then 3
    else if 101 ≤ v ∧ v ≤ 150 then 4
    else if 151 ≤ v ∧ v ≤ 200 then 5
    else if 201 ≤ v ∧ v ≤ 300 then 6
    else if 301 ≤ v ∧ v ≤ 400 then 7
    else if 401 ≤ v ∧ v ≤ 500 then 8
    else if 501 ≤ v then 9
    else 9

/-! ## Region counting (`Main/utils.py`, `count_points`)

Station values may be NaN; a value is modelled as `Option ℚ` with
`none` for NaN.  `np.histogram(arr, bins)` counts a value `v` in bin
`i` when `bins[i] ≤ v < bins[i+1]`, except that the last bin is closed
on the right; every configured bin table appends `np.inf` as the last
edge, so the last bin is `[last finite edge, ∞)`.  NaN values match no
bin. -/

/-- Histogram counts of `np.histogram (arr, es ++ [np.inf])`: `es` is
the list of finite bin edges; bin `i < es.length - 1` is
`[es[i], es[i+1])` and the final bin is `[es.last, ∞)`. -/
def histCounts (es : List ℚ) (arr : List (Option ℚ)) : List ℕ :=
  (List.range es.length).map (fun i =>
    arr.countP (fun v? =>
      match v? with
      | Option.none => false
      | Option.some v =>
        if i + 1 < es.length then
          decide (es.getD i 0 ≤ v ∧ v < es.getD (i + 1) 0)
        else
          decide (es.getD i 0 ≤ v)))

/-- Finite bin edges chosen by `count_points` (`Main/utils.py`, lines
286-307) from the configured map type and timescale; the trailing
`np.inf` edge of the source is implicit in `histCounts`. -/
def countPointsEdges (tipe skala : String) (levels : List ℚ) : List ℚ :=
  if tipe = "Curah Hujan" then
    if skala = "Bulanan" then [0, 100, 300, 500] else [0, 50, 150, 300]
  else if tipe = "Sifat Hujan" then [0, 85, 115]
  else levels

/-- `count_points` from `Main/utils.py`: the per-category histogram
counts together with the `total` entry, which the source sets to
`len(arr)`. -/
def count_points (tipe skala : String) (levels : List ℚ) (arr : List (Option ℚ)) :
    List ℕ × ℕ :=
  (histCounts (countPointsEdges tipe skala levels) arr, arr.length)

/-! ## Verification metrics (`Main/utils.py`, `calculate_metrics`)

The contingency table passed to `calculate_metrics` is built in
`Main/processors.py` (lines 219-221 and 291-293) by `pd.crosstab` with
margins from two aligned category series and then reindexed to the
fixed category list `1..n` (n = 9 quantitative, n = 4 qualitative)
plus the `All` margin, filling absent categories with 0.  Its cells
are therefore pair counts of the zipped series, its margins per-series
counts, and its grand total the number of aligned pairs.  Float
division by zero in numpy/pandas produces a non-finite value (NaN or
±inf) instead of raising; non-finite results are modelled by `none`. -/

/-- Cell of the contingency table: number of aligned pairs with
forecast category `a` and observed category `b`. -/
def pairCount (fs os : List ℕ) (a b : ℕ) : ℕ :=
  (fs.zip os).count (a, b)

/-- Row margin `table.loc[a, «All»]`: aligned pairs with forecast `a`. -/
def rowMargin (fs os : List ℕ) (a : ℕ) : ℕ :=
  (fs.zip os).countP (fun p => decide (p.1 = a))

/-- Column margin `table.loc[«All», a]`: aligned pairs with observed `a`. -/
def colMargin (fs os : List ℕ) (a : ℕ) : ℕ :=
  (fs.zip os).countP (fun p => decide (p.2 = a))

/-- Grand total `table.loc[«All», «All»]`: the number of aligned pairs. -/
def grandTotal (fs os : List ℕ) : ℕ :=
  (fs.zip os).length

/-- Number of aligned pairs whose forecast and observed categories agree. -/
def matchCount (fs os : List ℕ) : ℕ :=
  (fs.zip os).countP (fun p => decide (p.1 = p.2))

/-- numpy float division: a zero divisor yields a non-finite value
(NaN or ±inf, with only a runtime warning), modelled as `none`. -/
def npDiv (x y : ℚ) : Option ℚ :=
  if y = 0 then none else some (x / y)

/-- `oi2` of `calculate_metrics`: sum over real categories of the
squared observed-category column probabilities. -/
def oi2 (n : ℕ) (fs os : List ℕ) : ℚ :=
  ∑ a in Finset.Icc 1 n, ((colMargin fs os a : ℚ) / (grandTotal fs os : ℚ)) ^ 2

/-- `calculate_metrics` from `Main/utils.py` (lines 268-283) on the
reindexed table over categories `1..n`: returns `(accuracy, hss, pss)`.
`accuracy = correct / total` with `correct` the diagonal sum over real
categories.  `hss` models the external `sklearn.cohen_kappa_score`
call: `(po - pe) / (1 - pe)` over the labels present in the data
(sklearn rejects empty input, and a zero denominator gives NaN; both
are `none`).  `pss = (hits - pixoi) / (1 - oi2)` over the table
probabilities; with a zero grand total every probability is already
non-finite, so the result is `none`. -/
def calculate_metrics (n : ℕ) (fs os : List ℕ) : Option ℚ × Option ℚ × Option ℚ :=
  let total : ℕ := grandTotal fs os
  let cats : Finset ℕ := Finset.Icc 1 n
  let correct : ℕ := ∑ a in cats, pairCount fs os a a
  let accuracy : Option ℚ := npDiv (correct : ℚ) (total : ℚ)
  let hss : Option ℚ :=
    if total = 0 then none
    else
      let po : ℚ := (matchCount fs os : ℚ) / (total : ℚ)
      let pe : ℚ := ∑ a in (fs ++ os).toFinset,
        ((rowMargin fs os a : ℚ) / (total : ℚ)) * ((colMargin fs os a : ℚ) / (total : ℚ))
      npDiv (po - pe) (1 - pe)
  let pss : Option ℚ :=
    if total = 0 then none
    else
      let hits : ℚ := ∑ a in cats, ((pairCount fs os a a : ℚ) / (total : ℚ))
      let pixoi : ℚ := ∑ a in cats,
        ((rowMargin fs os a : ℚ) / (total : ℚ)) * ((colMargin fs os a : ℚ) / (total : ℚ))
      npDiv (hits - pixoi) (1 - oi2 n fs os)
  (accuracy, hss, pss)

/-! ## Fine grid builder (`Main/map_creation.py`, `_get_fine_grid`)

Lines 251-276: from the bounding box of the main shapefile, column and
row counts are `int(np.ceil((max - min) / cell))` at the fixed cell
size `0.0021648361216` degrees, and the axes are
`np.linspace(min, min + n*cell, n+1)`, whose exact-arithmetic spacing
is one cell.  The source raises no error on any bounding box. -/

/-- The fixed output cell size `0.0021648361216` degrees. -/
def cellSize : ℚ := 21648361216 / 10000000000000

/-- Axis data produced by `_get_fine_grid` (the `xr.DataArray`
template wrapping is layout only and carries no further numbers). -/
structure FineGrid where
  ncols : ℕ
  nrows : ℕ
  xGrid : List ℚ
  yGrid : List ℚ
deriving DecidableEq, Repr

/-- `_get_fine_grid` from `Main/map_creation.py`: `int(np.ceil q)`
equals `⌈q⌉` for the nonneg spans of a bounding box. -/
def get_fine_grid (minx miny maxx maxy : ℚ) : FineGrid :=
  let ncols : ℕ := (⌈(maxx - minx) / cellSize⌉).toNat
  let nrows : ℕ := (⌈(maxy - miny) / cellSize⌉).toNat
  { ncols := ncols
    nrows := nrows
    xGrid := (List.range (ncols + 1)).map (fun i : ℕ => minx + (i : ℚ) * cellSize)
    yGrid := (List.range (nrows + 1)).map (fun i : ℕ => miny + (i : ℚ) * cellSize) }

/-! ## IDW kernel (`Main/utils.py`, `idw_numba`)

Per grid cell `i` the numba loop computes weights
`w = 1 / (dists[i,j]^power + 1e-10)` and returns
`sum(w * values[idx[i,j]]) / sum(w)` over the `k` columns. -/

/-- The `1e-10` regulariser of `idw_numba`. -/
def epsIDW : ℚ := 1 / 10000000000

/-- One IDW weight `1 / (d^power + 1e-10)`. -/
def idwWeight (power : ℕ) (d : ℚ) : ℚ :=
  1 / (d ^ power + epsIDW)

/-- `w_sum` of the `idw_numba` inner loop for one grid cell. -/
def idwWeightSum (drow : List ℚ) (power : ℕ) : ℚ :=
  ∑ j in Finset.range drow.length, idwWeight power (drow.getD j 0)

/-- `val_sum` of the `idw_numba` inner loop for one grid cell:
weights times the values of the neighbour stations `idx[i,j]`. -/
def idwValueSum (values drow : List ℚ) (irow : List ℕ) (power : ℕ) : ℚ :=
  ∑ j in Finset.range drow.length,
    idwWeight power (drow.getD j 0) * values.getD (irow.getD j 0) 0

/-- `result[i]` of `idw_numba` for one grid cell. -/
def idwCell (values drow : List ℚ) (irow : List ℕ) (power : ℕ) : ℚ :=
  idwValueSum values drow irow power / idwWeightSum drow power

/-- `idw_numba` from `Main/utils.py` (lines 52-65): the parallel outer
loop maps `idwCell` over the rows of the neighbour tables. -/
def idw_numba (values : List ℚ) (dists : List (List ℚ)) (idx : List (List ℕ))
    (power : ℕ) : List ℚ :=
  (dists.zip idx).map (fun r => idwCell values r.1 r.2 power)

/-! ## Regular-grid resampling (`Main/map_creation.py`, `_interpolate_regular_grid`)

Lines 279-303: the unique sorted source axes are rebuilt from the
station coordinates, station values are scattered onto that regular
grid (later rows overwrite earlier ones at a repeated coordinate),
NaN cells are filled by copying the nearest valid cell in index
(pixel) distance (`distance_transform_edt`; among equidistant valid
cells the concrete tie is implementation-defined, here the first in
row-major order), and the fine grid is resampled with
`RegularGridInterpolator(..., bounds_error=False, fill_value=np.nan)`.
Queries outside the source axis ranges yield the NaN sentinel.  The
claims concern the `nearest` method, embedded here: an in-range query
reads the filled grid at the nearest axis nodes (at an exact midpoint
the lower node, the tie again implementation-defined in scipy). -/

/-- One station row of `lon_pts`, `lat_pts`, `values`; a NaN value is
`none`. -/
structure StaPt where
  lon : ℚ
  lat : ℚ
  val : Option ℚ
deriving DecidableEq, Repr

/-- `np.unique`: sorted distinct coordinate values. -/
def uniqueSorted (l : List ℚ) : List ℚ :=
  l.toFinset.sort (· ≤ ·)

/-- Unique sorted latitudes of the stations. -/
def uLat (pts : List StaPt) : List ℚ :=
  uniqueSorted (pts.map (fun p => p.lat))

/-- Unique sorted longitudes of the stations. -/
def uLon (pts : List StaPt) : List ℚ :=
  uniqueSorted (pts.map (fun p => p.lon))

/-- Scattered source-grid value at coordinates `(la, lo)`: the value
of the last station row at that exact coordinate pair (matching the
sequential `grid_values[lat_idx, lon_idx] = values` assignment), or
`none` (NaN) if no station lies there. -/
def scatterVal (pts : List StaPt) (la lo : ℚ) : Option ℚ :=
  match pts.reverse.find? (fun p => decide (p.lat = la) && decide (p.lon = lo)) with
  | some p => p.val
  | none => none

/-- Index pairs of source-grid cells holding a valid (non-NaN) value. -/
def validCells (pts : List StaPt) : List (ℕ × ℕ) :=
  ((List.range (uLat pts).length).flatMap (fun i =>
    (List.range (uLon pts).length).map (fun j => (i, j)))).filter
    (fun c => ((scatterVal pts ((uLat pts).getD c.1 0) ((uLon pts).getD c.2 0)).isSome))

/-- Squared pixel distance between two source-grid index pairs. -/
def idxDist2 (a b : ℕ × ℕ) : ℤ :=
  ((a.1 : ℤ) - (b.1 : ℤ)) ^ 2 + ((a.2 : ℤ) - (b.2 : ℤ)) ^ 2

/-- One step of the nearest-valid-cell scan: keep the strictly closer
candidate, the earlier one on a tie. -/
def nearestStep (c : ℕ × ℕ) (best : Option (ℕ × ℕ)) (x : ℕ × ℕ) : Option (ℕ × ℕ) :=
  match best with
  | some b => if idxDist2 x c < idxDist2 b c then some x else some b
  | none => some x

/-- Valid cell nearest in pixel distance to `c` (first of the
equidistant ones), as in the `distance_transform_edt` index fill. -/
def nearestValidCell (cells : List (ℕ × ℕ)) (c : ℕ × ℕ) : Option (ℕ × ℕ) :=
  cells.foldl (nearestStep c) none

/-- Source-grid value after the NaN fill: a valid cell keeps its
scattered value, a NaN cell copies the nearest valid cell, and if no
valid cell exists the cell stays NaN. -/
def filledVal (pts : List StaPt) (i j : ℕ) : Option ℚ :=
  match scatterVal pts ((uLat pts).getD i 0) ((uLon pts).getD j 0) with
  | some v => some v
  | none =>
    match nearestValidCell (validCells pts) (i, j) with
    | some c => scatterVal pts ((uLat pts).getD c.1 0) ((uLon pts).getD c.2 0)
    | none => none

/-- Whether a query coordinate lies within the span of a source axis
(`bounds_error=False` sends the rest to the NaN fill value). -/
def inBoundsAxis (axis : List ℚ) (q : ℚ) : Bool :=
  match axis with
  | [] => false
  | a :: _ => decide (a ≤ q) && decide (q ≤ axis.getLastD 0)

/-- Index of the axis node nearest to `q` (lower index on a tie). -/
def nearestIdx (axis : List ℚ) (q : ℚ) : ℕ :=
  (List.range axis.length).foldl (fun best i =>
    if |axis.getD i 0 - q| < |axis.getD best 0 - q| then i else best) 0

/-- `_interpolate_regular_grid` specialised to `method='nearest'`,
evaluated at one fine-grid query point `(qlat, qlon)`. -/
def interpolate_regular_grid_nearest (pts : List StaPt) (qlat qlon : ℚ) : Option ℚ :=
  if inBoundsAxis (uLat pts) qlat && inBoundsAxis (uLon pts) qlon then
    filledVal pts (nearestIdx (uLat pts) qlat) (nearestIdx (uLon pts) qlon)
  else none

/-! ## Interpolation-path routing (`Main/map_creation.py`, `create_map`)

Lines 325-345: `create_map` counts the distinct non-NaN station
values, judges the field discrete when there are at most 10, and
always calls `_interpolate_regular_grid`, with method `nearest` for a
discrete field and otherwise `getattr(cfg, 'interpolation_method',
'linear')` (the `cfg` class defines no such attribute, so the default
is `linear` unless set at runtime).  `idw_numba` has no caller
anywhere in the repository. -/

/-- Which interpolation strategy a map request uses. -/
inductive InterpPath where
  | idw : InterpPath
  | regularGrid : String → InterpPath
deriving DecidableEq, Repr

/-- Number of distinct non-NaN station values
(`len(np.unique(values_full[~np.isnan(values_full)]))`). -/
def distinctCount (values : List (Option ℚ)) : ℕ :=
  (values.filterMap id).toFinset.card

/-- `is_discrete` of `create_map`: at most 10 distinct non-NaN values. -/
def is_discrete (values : List (Option ℚ)) : Bool :=
  distinctCount values ≤ 10

/-- The interpolation path `create_map` actually takes: always the
grid resampler, with method `nearest` when discrete and the
configured method otherwise. -/
def create_map_interp_path (values : List (Option ℚ)) (cfgMethod : String) : InterpPath :=
  InterpPath.regularGrid (if is_discrete values then "nearest" else cfgMethod)

/-- Modelled from the spec's words (refinement target): more than 10
distinct values route to the distance-weighted IDW interpolator, at
most 10 to the grid resampler's nearest-value mode. -/
def spec_interp_path (values : List (Option ℚ)) : InterpPath :=
  if 10 < distinctCount values then InterpPath.idw
  else InterpPath.regularGrid "nearest"

/-! ## Clipping context (`Main/map_creation.py`, `_prepare_map_context`)

Lines 182-201: the station points are clipped to the main shapefile
polygon (`gpd.clip` keeps exactly the points inside the geometry,
modelled by a membership predicate) and the context is returned with
both the full and the clipped point sets; the source contains no check
or warning on an empty clip.  `create_hth_plot`
(`Main/hth_processor.py`, lines 139-144) additionally replaces an
empty clip with the unclipped set after printing a warning status;
its boolean records whether that warning branch was taken. -/

/-- A station point (geometry column of the GeoDataFrame). -/
structure Pt2 where
  lon : ℚ
  lat : ℚ
deriving DecidableEq, Repr

/-- The parts of the `_prepare_map_context` result the claims
concern: the full and the clipped point sets. -/
structure MapContext where
  gdf : List Pt2
  clipped_gdf : List Pt2
deriving DecidableEq, Repr

/-- `_prepare_map_context` from `Main/map_creation.py`: clip and
return; no emptiness check, no warning, no error path. -/
def prepare_map_context (inRegion : Pt2 → Bool) (df : List Pt2) : MapContext :=
  { gdf := df, clipped_gdf := df.filter inRegion }

/-- The clip step of `create_hth_plot` (`Main/hth_processor.py`,
lines 139-144): on an empty clip, fall back to the unclipped set; the
boolean is true exactly when the warning branch ran. -/
def hth_clip (inRegion : Pt2 → Bool) (gdf : List Pt2) : List Pt2 × Bool :=
  let clipped := gdf.filter inRegion
  if clipped.length = 0 then (gdf, true) else (clipped, false)

/-! ## Theorems -/

/-- **C2** (confirmed).  Categorizer fallback: every invalid input —
`None`, NaN, a non-numeric value, or a negative number — is mapped to
category 1 by both `categorize_ch` and `categorize_index`; and on
valid input `categorize_ch 100 = 1`, `categorize_ch 101 = 2`,
`categorize_ch 1e9 = 4`. -/
theorem categorize_fallback_policy :
    categorize_ch PValue.null = 1 ∧ categorize_ch PValue.nan = 1 ∧
    categorize_ch PValue.nonNumeric = 1 ∧
    (∀ q : ℚ, q < 0 → categorize_ch (PValue.num q) = 1) ∧
    categorize_index PValue.null = 1 ∧ categorize_index PValue.nan = 1 ∧
    categorize_index PValue.nonNumeric = 1 ∧
    (∀ q : ℚ, q < 0 → categorize_index (PValue.num q) = 1) ∧
    categorize_ch (PValue.num 100) = 1 ∧ categorize_ch (PValue.num 101) = 2 ∧
    categorize_ch (PValue.num 1000000000) = 4 := by
  refine ⟨rfl, rfl, rfl, fun q hq => ?_, rfl, rfl, rfl, fun q hq => ?_, ?_, ?_, ?_⟩
  · simp only [categorize_ch]
    rw [if_pos hq]
  · simp only [categorize_index]
    rw [if_pos hq]
  · with_unfolding_all decide
  · with_unfolding_all decide
  · with_unfolding_all decide

/-- Witness for C2: the fallback theorem applied at the concrete
negative input −5 of the spec. -/
theorem categorize_fallback_policy_witness :
    categorize_ch (PValue.num (-5)) = 1 ∧ categorize_index (PValue.num (-5)) = 1 :=
  ⟨categorize_fallback_policy.2.2.2.1 (-5) (by with_unfolding_all decide),
   categorize_fallback_policy.2.2.2.2.2.2.2.1 (-5) (by with_unfolding_all decide)⟩

/-- **C10** (confirmed).  Bin-gap behaviour: a numeric value strictly
between two consecutive category ranges matches no range, so both
categorizers fall through to their terminal return and yield the
highest category — 4 for `categorize_ch` (gaps 100–101, 300–301,
500–501) and 9 for `categorize_index` (gaps 20–21, 50–51, 100–101,
150–151, 200–201, 300–301, 400–401, 500–501) — not the lowest-bucket
fallback used for invalid input. -/
theorem categorize_bin_gap (q : ℚ) :
    ((100 < q ∧ q < 101) ∨ (300 < q ∧ q < 301) ∨ (500 < q ∧ q < 501) →
      categorize_ch (PValue.num q) = 4) ∧
    ((20 < q ∧ q < 21) ∨ (50 < q ∧ q < 51) ∨ (100 < q ∧ q < 101) ∨
     (150 < q ∧ q < 151) ∨ (200 < q ∧ q < 201) ∨ (300 < q ∧ q < 301) ∨
     (400 < q ∧ q < 401) ∨ (500 < q ∧ q < 501) →
      categorize_index (PValue.num q) = 9) := by
  constructor
  · intro h
    simp only [categorize_ch]
    rcases h with ⟨ha, hb⟩ | ⟨ha, hb⟩ | ⟨ha, hb⟩ <;>
      rw [if_neg (fun hc => by linarith),
        if_neg (fun hc => by linarith [hc.1, hc.2]),
        if_neg (fun hc => by linarith [hc.1, hc.2]),
        if_neg (fun hc => by linarith [hc.1, hc.2]),
        if_neg (fun hc => by linarith)]
  · intro h
    simp only [categorize_index]
    rcases h with ⟨ha, hb⟩ | ⟨ha, hb⟩ | ⟨ha, hb⟩ | ⟨ha, hb⟩ | ⟨ha, hb⟩ | ⟨ha, hb⟩ |
      ⟨ha, hb⟩ | ⟨ha, hb⟩ <;>
      rw [if_neg (fun hc => by linarith),
        if_neg (fun hc => by linarith [hc.1, hc.2]),
        if_neg (fun hc => by linarith [hc.1, hc.2]),
        if_neg (fun hc => by linarith [hc.1, hc.2]),
        if_neg (fun hc => by linarith [hc.1, hc.2]),
        if_neg (fun hc => by linarith [hc.1, hc.2]),
        if_neg (fun hc => by linarith [hc.1, hc.2]),
        if_neg (fun hc => by linarith [hc.1, hc.2]),
        if_neg (fun hc => by linarith [hc.1, hc.2]),
        if_neg (fun hc => by linarith)]

/-- Witness for C10: the gap theorem applied at 100.5 (a rainfall
amount strictly between ranges 1 and 2) and at 20.5 (an index value
strictly between ranges 1 and 2). -/
theorem categorize_bin_gap_witness :
    categorize_ch (PValue.num (201 / 2)) = 4 ∧
    categorize_index (PValue.num (41 / 2)) = 9 :=
  ⟨(categorize_bin_gap (201 / 2)).1
      (Or.inl ⟨by with_unfolding_all decide, by with_unfolding_all decide⟩),
   (categorize_bin_gap (41 / 2)).2
      (Or.inl ⟨by with_unfolding_all decide, by with_unfolding_all decide⟩)⟩

/-- Partition lemma for a four-edge histogram: when the edges are
strictly increasing, every non-NaN value at or above the lowest edge
lands in exactly one bin, so the bin counts sum to the list length. -/
theorem histCounts4_sum (a b c d : ℚ) (_hab : a < b) (hbc : b < c) (hcd : c < d)
    (arr : List (Option ℚ)) (h : ∀ v? ∈ arr, ∃ v, v? = some v ∧ a ≤ v) :
    (histCounts [a, b, c, d] arr).sum = arr.length := by
  have hshape : ∀ (l : List (Option ℚ)),
      histCounts [a, b, c, d] l =
        [l.countP (fun v? => match v? with
            | Option.none => false
            | Option.some w => decide (a ≤ w ∧ w < b)),
         l.countP (fun v? => match v? with
            | Option.none => false
            | Option.some w => decide (b ≤ w ∧ w < c)),
         l.countP (fun v? => match v? with
            | Option.none => false
            | Option.some w => decide (c ≤ w ∧ w < d)),
         l.countP (fun v? => match v? with
            | Option.none => false
            | Option.some w => decide (d ≤ w))] := fun l => rfl
  induction arr with
  | nil => rfl
  | cons x t ih =>
    obtain ⟨v, rfl, hv⟩ := h x (List.mem_cons_self x t)
    have ih' := ih (fun y hy => h y (List.mem_cons_of_mem _ hy))
    rw [hshape] at ih' ⊢
    simp only [List.countP_cons, List.sum_cons, List.sum_nil, List.length_cons,
      decide_eq_true_eq] at ih' ⊢
    rcases lt_or_le v b with h1 | h1
    · rw [if_pos ⟨hv, h1⟩, if_neg (fun hc => by linarith [hc.1]),
        if_neg (fun hc => by linarith [hc.1]), if_neg (fun hc => by linarith)]
      omega
    · rcases lt_or_le v c with h2 | h2
      · rw [if_neg (fun hc => by linarith [hc.2]), if_pos ⟨h1, h2⟩,
          if_neg (fun hc => by linarith [hc.1]), if_neg (fun hc => by linarith)]
        omega
      · rcases lt_or_le v d with h3 | h3
        · rw [if_neg (fun hc => by linarith [hc.2]), if_neg (fun hc => by linarith [hc.2]),
            if_pos ⟨h2, h3⟩, if_neg (fun hc => by linarith)]
          omega
        · rw [if_neg (fun hc => by linarith [hc.2]), if_neg (fun hc => by linarith [hc.2]),
            if_neg (fun hc => by linarith [hc.2]), if_pos h3]
          omega

/-- Partition lemma for a three-edge histogram, as `histCounts4_sum`. -/
theorem histCounts3_sum (a b c : ℚ) (_hab : a < b) (hbc : b < c)
    (arr : List (Option ℚ)) (h : ∀ v? ∈ arr, ∃ v, v? = some v ∧ a ≤ v) :
    (histCounts [a, b, c] arr).sum = arr.length := by
  have hshape : ∀ (l : List (Option ℚ)),
      histCounts [a, b, c] l =
        [l.countP (fun v? => match v? with
            | Option.none => false
            | Option.some w => decide (a ≤ w ∧ w < b)),
         l.countP (fun v? => match v? with
            | Option.none => false
            | Option.some w => decide (b ≤ w ∧ w < c)),
         l.countP (fun v? => match v? with
            | Option.none => false
            | Option.some w => decide (c ≤ w))] := fun l => rfl
  induction arr with
  | nil => rfl
  | cons x t ih =>
    obtain ⟨v, rfl, hv⟩ := h x (List.mem_cons_self x t)
    have ih' := ih (fun y hy => h y (List.mem_cons_of_mem _ hy))
    rw [hshape] at ih' ⊢
    simp only [List.countP_cons, List.sum_cons, List.sum_nil, List.length_cons,
      decide_eq_true_eq] at ih' ⊢
    rcases lt_or_le v b with h1 | h1
    · rw [if_pos ⟨hv, h1⟩, if_neg (fun hc => by linarith [hc.1]),
        if_neg (fun hc => by linarith)]
      omega
    · rcases lt_or_le v c with h2 | h2
      · rw [if_neg (fun hc => by linarith [hc.2]), if_pos ⟨h1, h2⟩,
          if_neg (fun hc => by linarith)]
        omega
      · rw [if_neg (fun hc => by linarith [hc.2]), if_neg (fun hc => by linarith [hc.2]),
          if_pos h2]
        omega

/-- **C4** counterexample.  A point group holding the single station
value −1 under the monthly rainfall configuration: `count_points`
drops the negative value from every bin (the lowest `np.histogram`
edge is 0), so the category counts sum to 0 while `total` is 1. -/
theorem count_points_total_counterexample :
    (count_points "Curah Hujan" "Bulanan" [] [some (-1)]).1.sum = 0 ∧
    (count_points "Curah Hujan" "Bulanan" [] [some (-1)]).2 = 1 ∧
    (count_points "Curah Hujan" "Bulanan" [] [some (-1)]).1.sum ≠
      (count_points "Curah Hujan" "Bulanan" [] [some (-1)]).2 := by
  refine ⟨?_, rfl, ?_⟩ <;> with_unfolding_all decide

/-- **C4** (corrected).  Category-count totals: `total` always equals
the group size, and for the configured bin tables (rainfall amount at
either timescale, rainfall character) the per-category counts sum to
`total` provided every value in the group is non-NaN and at least 0
(the lowest bin edge); NaN and negative values are excluded from every
bin by `np.histogram` while still counted in `total`. -/
theorem count_points_total (tipe skala : String) (levels : List ℚ)
    (arr : List (Option ℚ))
    (htipe : tipe = "Curah Hujan" ∨ tipe = "Sifat Hujan")
    (h : ∀ v? ∈ arr, ∃ v, v? = some v ∧ 0 ≤ v) :
    (count_points tipe skala levels arr).2 = arr.length ∧
    (count_points tipe skala levels arr).1.sum = (count_points tipe skala levels arr).2 := by
  refine ⟨rfl, ?_⟩
  show (histCounts (countPointsEdges tipe skala levels) arr).sum = arr.length
  rcases htipe with rfl | rfl
  · by_cases hs : skala = "Bulanan"
    · rw [show countPointsEdges "Curah Hujan" skala levels = [0, 100, 300, 500] by
        simp [countPointsEdges, hs]]
      exact histCounts4_sum 0 100 300 500 (by norm_num) (by norm_num) (by norm_num) arr h
    · rw [show countPointsEdges "Curah Hujan" skala levels = [0, 50, 150, 300] by
        simp [countPointsEdges, hs]]
      exact histCounts4_sum 0 50 150 300 (by norm_num) (by norm_num) (by norm_num) arr h
  · rw [show countPointsEdges "Sifat Hujan" skala levels = [0, 85, 115] by
      simp [countPointsEdges]]
    exact histCounts3_sum 0 85 115 (by norm_num) (by norm_num) arr h

/-- Witness for C4: the amended totals theorem applied to the
three-station scenario of the spec (values 50, 250, 600, monthly
rainfall bins), whose counts 1/1/0/1 sum to the group size 3. -/
theorem count_points_total_witness :
    (count_points "Curah Hujan" "Bulanan" [] [some 50, some 250, some 600]).2 = 3 ∧
    (count_points "Curah Hujan" "Bulanan" [] [some 50, some 250, some 600]).1.sum =
      (count_points "Curah Hujan" "Bulanan" [] [some 50, some 250, some 600]).2 := by
  have := count_points_total "Curah Hujan" "Bulanan" []
    [some 50, some 250, some 600] (Or.inl rfl)
    (by
      intro v? hv?
      fin_cases hv?
      · exact ⟨50, rfl, by norm_num⟩
      · exact ⟨250, rfl, by norm_num⟩
      · exact ⟨600, rfl, by norm_num⟩)
  exact ⟨this.1, this.2⟩

/-- Counting lemma: when every forecast label occurring in the pairs
lies in `cats`, the diagonal pair counts over `cats` sum to the number
of agreeing pairs. -/
theorem sum_count_diag (cats : Finset ℕ) (ps : List (ℕ × ℕ))
    (h : ∀ p ∈ ps, p.1 ∈ cats) :
    ∑ a in cats, ps.count (a, a) = ps.countP (fun p => decide (p.1 = p.2)) := by
  induction ps with
  | nil => simp
  | cons p t ih =>
    have ih' := ih (fun q hq => h q (List.mem_cons_of_mem _ hq))
    have hp : p.1 ∈ cats := h p (List.mem_cons_self _ _)
    simp only [List.count_cons, List.countP_cons, beq_iff_eq, decide_eq_true_eq]
    rw [Finset.sum_add_distrib, ih']
    congr 1
    by_cases hd : p.1 = p.2
    · obtain ⟨x, y⟩ := p
      simp only at hd
      subst hd
      simp only at hp
      calc (∑ a in cats, if (x, x) = (a, a) then 1 else 0)
          = ∑ a in cats, if a = x then 1 else 0 := by
            refine Finset.sum_congr rfl (fun a _ => ?_)
            by_cases hax : a = x
            · subst hax
              simp
            · rw [if_neg (fun hc => hax (congrArg Prod.fst hc).symm), if_neg hax]
        _ = if x ∈ cats then 1 else 0 := Finset.sum_ite_eq' cats x (fun _ => 1)
        _ = if x = x then 1 else 0 := by rw [if_pos hp, if_pos rfl]
    · rw [if_neg hd]
      exact Finset.sum_eq_zero (fun a _ => if_neg (fun hc => hd (by rw [hc])))

/-- **C5** (confirmed).  Accuracy bound: on the margined contingency
table built from two aligned non-empty category series over `1..n`,
the accuracy of `calculate_metrics` is the diagonal sum divided by
the grand total, lies in `[0, 1]`, and equals 1 exactly when every
off-diagonal cell of the table is zero. -/
theorem calculate_metrics_accuracy_bound (n : ℕ) (fs os : List ℕ)
    (hlen : fs.length = os.length) (hne : fs ≠ [])
    (hf : ∀ x ∈ fs, x ∈ Finset.Icc 1 n) (ho : ∀ x ∈ os, x ∈ Finset.Icc 1 n) :
    ∃ q : ℚ,
      (calculate_metrics n fs os).1 = some q ∧
      q = (∑ a in Finset.Icc 1 n, (pairCount fs os a a : ℚ)) / (grandTotal fs os : ℚ) ∧
      0 ≤ q ∧ q ≤ 1 ∧
      (q = 1 ↔ ∀ a ∈ Finset.Icc 1 n, ∀ b ∈ Finset.Icc 1 n, a ≠ b →
        pairCount fs os a b = 0) := by
  have hTlen : grandTotal fs os = fs.length := by
    rw [grandTotal, List.length_zip, hlen, Nat.min_self]
  have hTpos : 0 < grandTotal fs os := by
    rw [hTlen]
    exact List.length_pos.mpr hne
  have hTq : ((grandTotal fs os : ℚ)) ≠ 0 :=
    Nat.cast_ne_zero.mpr (by omega)
  have hdiag : ∑ a in Finset.Icc 1 n, pairCount fs os a a = matchCount fs os := by
    rw [matchCount]
    exact sum_count_diag _ _ (fun p hp => hf p.1 (List.of_mem_zip hp).1)
  have hcorrect_le : ∑ a in Finset.Icc 1 n, pairCount fs os a a ≤ grandTotal fs os := by
    rw [hdiag, matchCount, grandTotal]
    exact List.countP_le_length _
  refine ⟨((∑ a in Finset.Icc 1 n, pairCount fs os a a : ℕ) : ℚ) / (grandTotal fs os : ℚ),
    ?_, ?_, ?_, ?_, ?_⟩
  · show npDiv _ _ = _
    rw [npDiv, if_neg hTq]
  · push_cast
    rfl
  · positivity
  · rw [div_le_one (by exact_mod_cast hTpos)]
    exact_mod_cast hcorrect_le
  · rw [div_eq_one_iff_eq hTq, Nat.cast_inj, hdiag]
    constructor
    · intro hall a _ b _ hab
      have hps : ∀ p ∈ fs.zip os, (decide (p.1 = p.2)) = true := by
        rw [matchCount, grandTotal] at hall
        exact List.countP_eq_length.mp hall
      rw [pairCount, List.count_eq_zero]
      intro hmem
      exact hab (by simpa using hps (a, b) hmem)
    · intro hz
      rw [matchCount, grandTotal]
      refine List.countP_eq_length.mpr (fun p hp => ?_)
      simp only [decide_eq_true_eq]
      by_contra hne'
      have h0 : pairCount fs os p.1 p.2 = 0 :=
        hz p.1 (hf _ (List.of_mem_zip hp).1) p.2 (ho _ (List.of_mem_zip hp).2) hne'
      rw [pairCount, List.count_eq_zero] at h0
      exact h0 (by simpa using hp)

/-- Witness for C5: the bound applied to the spec's scenario, forecast
categories `[1,1,2,3]` against observed `[1,2,2,3]` over `1..4`. -/
theorem calculate_metrics_accuracy_bound_witness :
    ∃ q : ℚ, (calculate_metrics 4 [1, 1, 2, 3] [1, 2, 2, 3]).1 = some q ∧
      0 ≤ q ∧ q ≤ 1 := by
  obtain ⟨q, h1, _, h3, h4, _⟩ :=
    calculate_metrics_accuracy_bound 4 [1, 1, 2, 3] [1, 2, 2, 3] rfl (by decide)
      (by decide) (by decide)
  exact ⟨q, h1, h3, h4⟩

/-- Degeneracy lemma: when every observed category of the aligned
pairs is the single label `c ∈ 1..n`, the observed column
probabilities concentrate on `c` and `oi2 = 1`. -/
theorem oi2_degenerate (n : ℕ) (fs os : List ℕ) (c : ℕ) (hc : c ∈ Finset.Icc 1 n)
    (hne : fs.zip os ≠ []) (hall : ∀ p ∈ fs.zip os, p.2 = c) :
    oi2 n fs os = 1 := by
  have hTpos : 0 < grandTotal fs os := by
    rw [grandTotal]
    exact List.length_pos.mpr hne
  have hTq : ((grandTotal fs os : ℚ)) ≠ 0 :=
    Nat.cast_ne_zero.mpr (by omega)
  rw [oi2, Finset.sum_eq_single c]
  · have hcol : colMargin fs os c = grandTotal fs os := by
      rw [colMargin, grandTotal]
      exact List.countP_eq_length.mpr (fun p hp => by simp [hall p hp])
    rw [hcol, div_self hTq, one_pow]
  · intro b _ hbc
    have hcol0 : colMargin fs os b = 0 := by
      rw [colMargin]
      refine List.countP_eq_zero.mpr (fun p hp => ?_)
      simp only [decide_eq_true_eq]
      rw [hall p hp]
      exact fun h => hbc h.symm
    rw [hcol0]
    norm_num
  · intro hcn
    exact absurd hc hcn

/-- **C3** counterexample.  Two perfectly agreeing series constant at
category 1 over `1..9` (all observations in one category, so the pss
denominator `1 − oi2` is exactly 0): `calculate_metrics` raises no
error and returns accuracy 1 together with the non-finite NaN
placeholder (`none`) for both hss and pss. -/
theorem calculate_metrics_degenerate_counterexample :
    (calculate_metrics 9 [1, 1] [1, 1]).1 = some 1 ∧
    (calculate_metrics 9 [1, 1] [1, 1]).2.1 = none ∧
    (calculate_metrics 9 [1, 1] [1, 1]).2.2 = none := by
  refine ⟨?_, ?_, ?_⟩ <;> with_unfolding_all decide

/-- **C3** (corrected).  Degenerate verification handling: the scorer
has no degeneracy guard.  On a table with zero valid comparisons all
three metrics come out as the non-finite placeholder `none` (NaN from
0/0 divisions, and the external kappa call rejects the empty series)
rather than a raised `DegenerateVerification` error; and whenever all
observations fall in one category `c` (so the pss denominator
`1 − oi2` is zero) the scorer returns NaN (`none`) for pss instead of
reporting the case as undefined. -/
theorem calculate_metrics_no_degenerate_guard (n : ℕ) (fs os : List ℕ) :
    (fs.zip os = [] →
      (calculate_metrics n fs os).1 = none ∧
      (calculate_metrics n fs os).2.1 = none ∧
      (calculate_metrics n fs os).2.2 = none) ∧
    (∀ c ∈ Finset.Icc 1 n, fs.zip os ≠ [] → (∀ p ∈ fs.zip os, p.2 = c) →
      (calculate_metrics n fs os).2.2 = none) := by
  constructor
  · intro h
    have hT : grandTotal fs os = 0 := by rw [grandTotal, h]; rfl
    refine ⟨?_, ?_, ?_⟩ <;> simp [calculate_metrics, hT, npDiv]
  · intro c hc hne hall
    have hT : grandTotal fs os ≠ 0 := by
      rw [grandTotal]
      exact fun h0 => hne (List.length_eq_zero.mp h0)
    have hden : 1 - oi2 n fs os = 0 := by
      rw [oi2_degenerate n fs os c hc hne hall]
      ring
    simp [calculate_metrics, hT, npDiv, hden]

/-- Witness for C3: the no-guard theorem applied to the empty series
pair (zero valid comparisons) and to the constant series `[2,2]`
against `[2,2]` over `1..9` (pss denominator zero). -/
theorem calculate_metrics_no_degenerate_guard_witness :
    (calculate_metrics 9 ([] : List ℕ) ([] : List ℕ)).1 = none ∧
    (calculate_metrics 9 [2, 2] [2, 2]).2.2 = none :=
  ⟨((calculate_metrics_no_degenerate_guard 9 [] []).1 rfl).1,
   (calculate_metrics_no_degenerate_guard 9 [2, 2] [2, 2]).2 2
     (by decide) (by decide) (by decide)⟩

/-- Axis helper: the first point of a built axis is the lower bound. -/
theorem gridAxis_head (lo : ℚ) (n : ℕ) :
    ((List.range (n + 1)).map (fun i : ℕ => lo + (i : ℚ) * cellSize)).head? = some lo := by
  rw [List.range_succ_eq_map]
  simp

/-- Axis helper: the last point of a built axis is `lo + n * cellSize`. -/
theorem gridAxis_getLast (lo : ℚ) (n : ℕ) :
    ((List.range (n + 1)).map (fun i : ℕ => lo + (i : ℚ) * cellSize)).getLast? =
      some (lo + (n : ℚ) * cellSize) := by
  rw [List.range_succ, List.map_append]
  simp

/-- Ceiling helper: for a positive span the column count is the
(nonnegative) ceiling of span over cell, it covers the span, and it
overshoots by less than one cell. -/
theorem ceil_cells_cover (span : ℚ) (hpos : 0 < span) :
    ((⌈span / cellSize⌉.toNat : ℤ) = ⌈span / cellSize⌉) ∧
    span ≤ (⌈span / cellSize⌉.toNat : ℚ) * cellSize ∧
    (⌈span / cellSize⌉.toNat : ℚ) * cellSize - span < cellSize := by
  have hcell : (0 : ℚ) < cellSize := by norm_num [cellSize]
  have hq : 0 < span / cellSize := div_pos hpos hcell
  have hceil : (0 : ℤ) ≤ ⌈span / cellSize⌉ := le_of_lt (Int.ceil_pos.mpr hq)
  have hcast : ((⌈span / cellSize⌉.toNat : ℤ) = ⌈span / cellSize⌉) :=
    Int.toNat_of_nonneg hceil
  have hcastq : ((⌈span / cellSize⌉.toNat : ℚ)) = ((⌈span / cellSize⌉ : ℤ) : ℚ) := by
    exact_mod_cast congrArg (fun z => ((z : ℤ) : ℚ)) hcast
  refine ⟨hcast, ?_, ?_⟩
  · rw [hcastq]
    have hle : span / cellSize ≤ ((⌈span / cellSize⌉ : ℤ) : ℚ) := Int.le_ceil _
    calc span = span / cellSize * cellSize := (div_mul_cancel₀ span (ne_of_gt hcell)).symm
      _ ≤ ((⌈span / cellSize⌉ : ℤ) : ℚ) * cellSize :=
          mul_le_mul_of_nonneg_right hle (le_of_lt hcell)
  · rw [hcastq]
    have hlt : ((⌈span / cellSize⌉ : ℤ) : ℚ) < span / cellSize + 1 := Int.ceil_lt_add_one _
    have := mul_lt_mul_of_pos_right hlt hcell
    rw [add_mul, div_mul_cancel₀ span (ne_of_gt hcell), one_mul] at this
    linarith

/-- **C6** (confirmed).  Grid coverage: for a non-degenerate bounding
box, `_get_fine_grid` produces `ncols = ⌈(maxx−minx)/cell⌉` and
`nrows = ⌈(maxy−miny)/cell⌉` at the fixed cell size, and axes running
from the low bound to `low + n·cell`, which reaches the high bound and
overshoots it by less than one cell on each axis. -/
theorem get_fine_grid_covers (minx miny maxx maxy : ℚ)
    (hx : minx < maxx) (hy : miny < maxy) :
    (((get_fine_grid minx miny maxx maxy).ncols : ℤ) = ⌈(maxx - minx) / cellSize⌉) ∧
    (((get_fine_grid minx miny maxx maxy).nrows : ℤ) = ⌈(maxy - miny) / cellSize⌉) ∧
    (get_fine_grid minx miny maxx maxy).xGrid.head? = some minx ∧
    (get_fine_grid minx miny maxx maxy).yGrid.head? = some miny ∧
    (get_fine_grid minx miny maxx maxy).xGrid.getLast? =
      some (minx + ((get_fine_grid minx miny maxx maxy).ncols : ℚ) * cellSize) ∧
    (get_fine_grid minx miny maxx maxy).yGrid.getLast? =
      some (miny + ((get_fine_grid minx miny maxx maxy).nrows : ℚ) * cellSize) ∧
    maxx ≤ minx + ((get_fine_grid minx miny maxx maxy).ncols : ℚ) * cellSize ∧
    maxy ≤ miny + ((get_fine_grid minx miny maxx maxy).nrows : ℚ) * cellSize ∧
    minx + ((get_fine_grid minx miny maxx maxy).ncols : ℚ) * cellSize - maxx < cellSize ∧
    miny + ((get_fine_grid minx miny maxx maxy).nrows : ℚ) * cellSize - maxy < cellSize := by
  obtain ⟨hcx, hcovx, hovx⟩ := ceil_cells_cover (maxx - minx) (by linarith)
  obtain ⟨hcy, hcovy, hovy⟩ := ceil_cells_cover (maxy - miny) (by linarith)
  have hnx : (get_fine_grid minx miny maxx maxy).ncols =
      (⌈(maxx - minx) / cellSize⌉).toNat := rfl
  have hny : (get_fine_grid minx miny maxx maxy).nrows =
      (⌈(maxy - miny) / cellSize⌉).toNat := rfl
  refine ⟨?_, ?_, gridAxis_head minx _, gridAxis_head miny _,
    gridAxis_getLast minx _, gridAxis_getLast miny _, ?_, ?_, ?_, ?_⟩
  · rw [hnx]
    exact hcx
  · rw [hny]
    exact hcy
  · rw [hnx]
    linarith
  · rw [hny]
    linarith
  · rw [hnx]
    linarith
  · rw [hny]
    linarith

/-- Witness for C6: the coverage theorem applied to the unit bounding
box (0, 0, 1, 1). -/
theorem get_fine_grid_covers_witness :
    (get_fine_grid 0 0 1 1).xGrid.head? = some 0 ∧
    (1 : ℚ) ≤ 0 + ((get_fine_grid 0 0 1 1).ncols : ℚ) * cellSize ∧
    0 + ((get_fine_grid 0 0 1 1).ncols : ℚ) * cellSize - 1 < cellSize := by
  obtain ⟨_, _, h3, _, _, _, h7, _, h9, _⟩ :=
    get_fine_grid_covers 0 0 1 1 (by norm_num) (by norm_num)
  exact ⟨h3, h7, h9⟩

/-- **C7** counterexample.  A zero-area bounding box (maxx = minx = 0):
`_get_fine_grid` does not fail — it silently returns a grid whose x
axis is the single point `[0]` (ncols = 0). -/
theorem get_fine_grid_degenerate_counterexample :
    (get_fine_grid 0 0 0 1).ncols = 0 ∧ (get_fine_grid 0 0 0 1).xGrid = [0] := by
  constructor <;> with_unfolding_all decide

/-- **C7** (corrected).  Degenerate bounding box: on any zero-width
box (`maxx = minx`) the builder raises no error and produces
`ncols = 0` with the single-point x axis `[minx]` (and symmetrically
for a zero-height box); there is no fail-fast path in the source. -/
theorem get_fine_grid_degenerate (minx miny maxy : ℚ) :
    (get_fine_grid minx miny minx maxy).ncols = 0 ∧
    (get_fine_grid minx miny minx maxy).xGrid = [minx] := by
  have h0 : (⌈(minx - minx) / cellSize⌉ : ℤ) = 0 := by
    rw [sub_self, zero_div, Int.ceil_zero]
  constructor
  · show (⌈(minx - minx) / cellSize⌉).toNat = 0
    rw [h0]
    rfl
  · show (List.range ((⌈(minx - minx) / cellSize⌉).toNat + 1)).map
      (fun i : ℕ => minx + (i : ℚ) * cellSize) = [minx]
    rw [h0]
    show [minx + ((0 : ℕ) : ℚ) * cellSize] = [minx]
    norm_num

/-- **C9** counterexample.  Two stations with values 0 and 1, a grid
cell coincident with station 0 (`dists = [0, 1]`, `idx = [0, 1]`,
power 2): no division by zero occurs, but in exact arithmetic the
IDW result is not equal to the coincident station's value 0 — the
ε-regularised weight of the far station contributes a small positive
amount, so the result only approximates 0. -/
theorem idw_coincident_counterexample :
    ([0, 1] : List ℚ).getD (([0, 1] : List ℕ).getD 0 0) 0 = 0 ∧
    idwCell [0, 1] [0, 1] [0, 1] 2 ≠
      ([0, 1] : List ℚ).getD (([0, 1] : List ℕ).getD 0 0) 0 := by
  constructor <;> with_unfolding_all decide

/-- **C9** (corrected).  IDW coincident-station case: for a grid cell
whose distance row contains a zero at position `j0` (with nonneg
distances and a positive power), the weight sum is strictly positive —
so `idw_numba` never divides by zero — and the result differs from
the coincident station's value by at most `ε` times the weighted sum
of the other stations' value offsets (the `ε = 1e-10` term makes the
coincident weight `1/ε` dominate; exact equality holds only when all
neighbour values coincide). -/
theorem idw_coincident_bounded (values drow : List ℚ) (irow : List ℕ) (power : ℕ)
    (j0 : ℕ) (hpow : power ≠ 0) (hj0 : j0 < drow.length)
    (hz : drow.getD j0 0 = 0)
    (hnn : ∀ j ∈ Finset.range drow.length, 0 ≤ drow.getD j 0) :
    0 < idwWeightSum drow power ∧
    |idwCell values drow irow power - values.getD (irow.getD j0 0) 0| ≤
      epsIDW * ∑ j in Finset.range drow.length,
        idwWeight power (drow.getD j 0) *
          |values.getD (irow.getD j 0) 0 - values.getD (irow.getD j0 0) 0| := by
  have heps : (0 : ℚ) < epsIDW := by norm_num [epsIDW]
  have hwpos : ∀ j ∈ Finset.range drow.length, 0 < idwWeight power (drow.getD j 0) := by
    intro j hj
    have hd : (0 : ℚ) ≤ drow.getD j 0 := hnn j hj
    have : (0 : ℚ) < (drow.getD j 0) ^ power + epsIDW := by positivity
    exact div_pos one_pos this
  have hj0mem : j0 ∈ Finset.range drow.length := Finset.mem_range.mpr hj0
  have hWpos : 0 < idwWeightSum drow power :=
    Finset.sum_pos hwpos ⟨j0, hj0mem⟩
  have hj0w : idwWeight power (drow.getD j0 0) = 1 / epsIDW := by
    rw [idwWeight, hz, zero_pow hpow, zero_add]
  have hWge : 1 / epsIDW ≤ idwWeightSum drow power := by
    rw [← hj0w]
    exact Finset.single_le_sum (fun j hj => le_of_lt (hwpos j hj)) hj0mem
  refine ⟨hWpos, ?_⟩
  set v0 : ℚ := values.getD (irow.getD j0 0) 0 with hv0
  set S : ℚ := idwWeightSum drow power with hS
  have hnum : idwValueSum values drow irow power - v0 * S =
      ∑ j in Finset.range drow.length,
        idwWeight power (drow.getD j 0) * (values.getD (irow.getD j 0) 0 - v0) := by
    rw [idwValueSum, hS, idwWeightSum, Finset.mul_sum, ← Finset.sum_sub_distrib]
    exact Finset.sum_congr rfl (fun j _ => by ring)
  have hcell : idwCell values drow irow power - v0 =
      (∑ j in Finset.range drow.length,
        idwWeight power (drow.getD j 0) * (values.getD (irow.getD j 0) 0 - v0)) / S := by
    rw [idwCell, ← hnum, ← hS]
    field_simp
    ring
  set X : ℚ := ∑ j in Finset.range drow.length,
    idwWeight power (drow.getD j 0) * |values.getD (irow.getD j 0) 0 - v0| with hX
  have hXnn : 0 ≤ X :=
    Finset.sum_nonneg (fun j hj => mul_nonneg (le_of_lt (hwpos j hj)) (abs_nonneg _))
  have habs : |∑ j in Finset.range drow.length,
      idwWeight power (drow.getD j 0) * (values.getD (irow.getD j 0) 0 - v0)| ≤ X := by
    refine le_trans (Finset.abs_sum_le_sum_abs _ _) ?_
    refine Finset.sum_le_sum (fun j hj => ?_)
    rw [abs_mul, abs_of_pos (hwpos j hj)]
  have hone : 1 ≤ epsIDW * S := by
    have h1 : epsIDW * (1 / epsIDW) ≤ epsIDW * S :=
      mul_le_mul_of_nonneg_left hWge (le_of_lt heps)
    rw [mul_one_div_cancel (ne_of_gt heps)] at h1
    exact h1
  calc |idwCell values drow irow power - v0|
      = |∑ j in Finset.range drow.length,
          idwWeight power (drow.getD j 0) * (values.getD (irow.getD j 0) 0 - v0)| / S := by
        rw [hcell, abs_div, abs_of_pos hWpos]
    _ ≤ X / S := (div_le_div_iff_of_pos_right hWpos).mpr habs
    _ ≤ epsIDW * X := by
        rw [div_le_iff₀ hWpos]
        calc X = X * 1 := (mul_one X).symm
          _ ≤ X * (epsIDW * S) := mul_le_mul_of_nonneg_left hone hXnn
          _ = epsIDW * X * S := by ring

/-- Witness for C9: the bound applied to stations with values 5 and 7,
distance row `[0, 2]` (cell coincident with station 0), power 2. -/
theorem idw_coincident_bounded_witness :
    0 < idwWeightSum [0, 2] 2 ∧
    |idwCell [5, 7] [0, 2] [0, 1] 2 - ([5, 7] : List ℚ).getD (([0, 1] : List ℕ).getD 0 0) 0| ≤
      epsIDW * ∑ j in Finset.range 2,
        idwWeight 2 (([0, 2] : List ℚ).getD j 0) *
          |([5, 7] : List ℚ).getD (([0, 1] : List ℕ).getD j 0) 0 -
            ([5, 7] : List ℚ).getD (([0, 1] : List ℕ).getD 0 0) 0| :=
  idw_coincident_bounded [5, 7] [0, 2] [0, 1] 2 0 (by decide) (by decide)
    (by with_unfolding_all decide) (by with_unfolding_all decide)

/-- **C8** counterexample.  A single station outside the region
polygon: `gpd.clip` removes every point, yet `_prepare_map_context`
returns the context with the empty clipped set and the pipeline
proceeds — no warning, error, or fallback — while the HTH scatter
path on the same input warns and falls back to the unclipped set. -/
theorem prepare_map_context_empty_clip_counterexample :
    prepare_map_context (fun p => decide (p.lon < 0)) [{ lon := 1, lat := 1 }] =
      { gdf := [{ lon := 1, lat := 1 }], clipped_gdf := [] } ∧
    hth_clip (fun p => decide (p.lon < 0)) [{ lon := 1, lat := 1 }] =
      ([{ lon := 1, lat := 1 }], true) := by
  constructor <;> with_unfolding_all decide

/-- **C8** (corrected).  Empty-clip handling: whenever clipping the
station points to the region yields zero points,
`_prepare_map_context` silently returns the context with the empty
clipped set (there is no warning or `InsufficientStations`-style error
in `create_map`'s raster path, so empty maps/counts follow); the
warn-and-fall-back behaviour exists only in the HTH scatter path
(`create_hth_plot`), which returns the unclipped set with its warning
branch taken. -/
theorem prepare_map_context_empty_clip (inRegion : Pt2 → Bool) (df : List Pt2)
    (h : df.filter inRegion = []) :
    prepare_map_context inRegion df = { gdf := df, clipped_gdf := [] } ∧
    hth_clip inRegion df = (df, true) := by
  constructor
  · rw [prepare_map_context, h]
  · rw [hth_clip]
    simp only [h]
    rfl

/-- Witness for C8: the empty-clip theorem applied to one station at
(2, 3) and a region predicate rejecting it. -/
theorem prepare_map_context_empty_clip_witness :
    prepare_map_context (fun p => decide (p.lat = 0)) [{ lon := 2, lat := 3 }] =
      { gdf := [{ lon := 2, lat := 3 }], clipped_gdf := [] } ∧
    hth_clip (fun p => decide (p.lat = 0)) [{ lon := 2, lat := 3 }] =
      ([{ lon := 2, lat := 3 }], true) :=
  prepare_map_context_empty_clip (fun p => decide (p.lat = 0))
    [{ lon := 2, lat := 3 }] (by with_unfolding_all decide)

/-- Scattered values are station values: a source-grid cell is either
NaN or holds the value of some station row. -/
theorem scatterVal_mem (pts : List StaPt) (la lo : ℚ) :
    scatterVal pts la lo = none ∨ ∃ p ∈ pts, scatterVal pts la lo = p.val := by
  unfold scatterVal
  rcases hf : pts.reverse.find? (fun p => decide (p.lat = la) && decide (p.lon = lo))
    with _ | p
  · rw [hf]
    exact Or.inl rfl
  · rw [hf]
    exact Or.inr ⟨p, List.mem_reverse.mp (List.mem_of_find?_eq_some hf), rfl⟩

/-- Characterisation of membership in the valid-cell list. -/
theorem mem_validCells (pts : List StaPt) (c : ℕ × ℕ) :
    c ∈ validCells pts ↔
      c.1 < (uLat pts).length ∧ c.2 < (uLon pts).length ∧
      (scatterVal pts ((uLat pts).getD c.1 0) ((uLon pts).getD c.2 0)).isSome = true := by
  simp only [validCells, List.mem_filter, List.mem_flatMap, List.mem_map, List.mem_range]
  constructor
  · rintro ⟨⟨i, hi, j, hj, rfl⟩, hs⟩
    exact ⟨hi, hj, hs⟩
  · rintro ⟨h1, h2, h3⟩
    exact ⟨⟨c.1, h1, c.2, h2, rfl⟩, h3⟩

/-- The nearest-valid scan started from a candidate never loses it. -/
theorem foldl_nearestStep_isSome (c : ℕ × ℕ) (t : List (ℕ × ℕ)) (b : ℕ × ℕ) :
    (t.foldl (nearestStep c) (some b)).isSome = true := by
  induction t generalizing b with
  | nil => rfl
  | cons x t ih =>
    rw [List.foldl_cons]
    by_cases h : idxDist2 x c < idxDist2 b c
    · rw [show nearestStep c (some b) x = some x by simp [nearestStep, h]]
      exact ih x
    · rw [show nearestStep c (some b) x = some b by simp [nearestStep, h]]
      exact ih b

/-- On a non-empty cell list the nearest-valid scan returns a cell. -/
theorem nearestValidCell_isSome (cells : List (ℕ × ℕ)) (c : ℕ × ℕ) (h : cells ≠ []) :
    (nearestValidCell cells c).isSome = true := by
  rcases cells with _ | ⟨x, t⟩
  · exact absurd rfl h
  · rw [nearestValidCell, List.foldl_cons]
    exact foldl_nearestStep_isSome c t x

/-- The nearest-valid scan started from `b` returns a scanned cell or `b`. -/
theorem foldl_nearestStep_mem (c : ℕ × ℕ) (t : List (ℕ × ℕ)) (b d : ℕ × ℕ)
    (h : t.foldl (nearestStep c) (some b) = some d) : d ∈ t ∨ d = b := by
  induction t generalizing b with
  | nil => exact Or.inr (Option.some.inj h).symm
  | cons x t ih =>
    rw [List.foldl_cons] at h
    by_cases hc : idxDist2 x c < idxDist2 b c
    · rw [show nearestStep c (some b) x = some x by simp [nearestStep, hc]] at h
      rcases ih x h with hm | rfl
      · exact Or.inl (List.mem_cons_of_mem _ hm)
      · exact Or.inl (List.mem_cons_self _ _)
    · rw [show nearestStep c (some b) x = some b by simp [nearestStep, hc]] at h
      rcases ih b h with hm | rfl
      · exact Or.inl (List.mem_cons_of_mem _ hm)
      · exact Or.inr rfl

/-- The nearest-valid cell is one of the valid cells. -/
theorem nearestValidCell_mem (cells : List (ℕ × ℕ)) (c d : ℕ × ℕ)
    (h : nearestValidCell cells c = some d) : d ∈ cells := by
  rcases cells with _ | ⟨x, t⟩
  · cases h
  · rw [nearestValidCell, List.foldl_cons] at h
    rcases foldl_nearestStep_mem c t x d h with hm | rfl
    · exact List.mem_cons_of_mem _ hm
    · exact List.mem_cons_self _ _

/-- Filled values are station values: after the NaN fill, a
source-grid cell is either still NaN or holds some station's value. -/
theorem filledVal_mem (pts : List StaPt) (i j : ℕ) :
    filledVal pts i j = none ∨ ∃ p ∈ pts, filledVal pts i j = p.val := by
  unfold filledVal
  rcases h1 : scatterVal pts ((uLat pts).getD i 0) ((uLon pts).getD j 0) with _ | v
  · try rw [h1]
    rcases h2 : nearestValidCell (validCells pts) (i, j) with _ | d
    · try rw [h2]
      exact Or.inl rfl
    · try rw [h2]
      exact scatterVal_mem pts _ _
  · try rw [h1]
    rcases scatterVal_mem pts ((uLat pts).getD i 0) ((uLon pts).getD j 0) with hz | ⟨p, hp, he⟩
    · rw [h1] at hz
      cases hz
    · rw [h1] at he
      exact Or.inr ⟨p, hp, he⟩

/-- With at least one station and no NaN station value, the valid-cell
list is non-empty. -/
theorem validCells_ne_nil (pts : List StaPt) (hne : pts ≠ [])
    (hval : ∀ p ∈ pts, p.val ≠ none) : validCells pts ≠ [] := by
  obtain ⟨p, hp⟩ : ∃ p, p ∈ pts := List.exists_mem_of_ne_nil pts hne
  have hlat : p.lat ∈ uLat pts := by
    rw [uLat, uniqueSorted, Finset.mem_sort]
    exact List.mem_toFinset.mpr (List.mem_map_of_mem _ hp)
  have hlon : p.lon ∈ uLon pts := by
    rw [uLon, uniqueSorted, Finset.mem_sort]
    exact List.mem_toFinset.mpr (List.mem_map_of_mem _ hp)
  obtain ⟨i, hi, hieq⟩ := List.mem_iff_getElem.mp hlat
  obtain ⟨j, hj, hjeq⟩ := List.mem_iff_getElem.mp hlon
  have hgetI : (uLat pts).getD i 0 = p.lat := by
    rw [List.getD_eq_getElem?_getD, List.getElem?_eq_getElem hi]
    exact hieq
  have hgetJ : (uLon pts).getD j 0 = p.lon := by
    rw [List.getD_eq_getElem?_getD, List.getElem?_eq_getElem hj]
    exact hjeq
  have hscat : (scatterVal pts p.lat p.lon).isSome = true := by
    unfold scatterVal
    rcases hf : pts.reverse.find?
        (fun q => decide (q.lat = p.lat) && decide (q.lon = p.lon)) with _ | q
    · rw [List.find?_eq_none] at hf
      exact absurd (by simp) (hf p (List.mem_reverse.mpr hp))
    · rw [hf]
      have hq : q ∈ pts := List.mem_reverse.mp (List.mem_of_find?_eq_some hf)
      exact Option.isSome_iff_ne_none.mpr (hval q hq)
  refine List.ne_nil_of_mem (a := (i, j)) ?_
  rw [mem_validCells]
  refine ⟨hi, hj, ?_⟩
  rw [hgetI, hgetJ]
  exact hscat

/-- With at least one station and no NaN station value, every filled
source-grid cell holds some station's value. -/
theorem filledVal_mem_strong (pts : List StaPt) (i j : ℕ) (hne : pts ≠ [])
    (hval : ∀ p ∈ pts, p.val ≠ none) :
    ∃ p ∈ pts, filledVal pts i j = p.val := by
  unfold filledVal
  rcases h1 : scatterVal pts ((uLat pts).getD i 0) ((uLon pts).getD j 0) with _ | v
  · try rw [h1]
    have hvc := validCells_ne_nil pts hne hval
    have hsome := nearestValidCell_isSome (validCells pts) (i, j) hvc
    rcases h2 : nearestValidCell (validCells pts) (i, j) with _ | d
    · rw [h2] at hsome
      cases hsome
    · try rw [h2]
      have hd := nearestValidCell_mem _ _ _ h2
      rw [mem_validCells] at hd
      rcases scatterVal_mem pts ((uLat pts).getD d.1 0) ((uLon pts).getD d.2 0)
        with hz | ⟨p, hp, he⟩
      · rw [hz] at hd
        cases hd.2.2
      · exact ⟨p, hp, he⟩
  · try rw [h1]
    rcases scatterVal_mem pts ((uLat pts).getD i 0) ((uLon pts).getD j 0)
      with hz | ⟨p, hp, he⟩
    · rw [h1] at hz
      cases hz
    · rw [h1] at he
      exact ⟨p, hp, he⟩

/-- **C1** counterexample.  A station value column with 11 distinct
values (0..10): the spec's routing sends it to the IDW interpolator,
but `create_map` always calls `_interpolate_regular_grid`, here with
the default configured method `linear` — `idw_numba` is never invoked
(it has no caller in the repository). -/
theorem create_map_routing_counterexample :
    distinctCount [some 0, some 1, some 2, some 3, some 4, some 5, some 6,
      some 7, some 8, some 9, some 10] = 11 ∧
    spec_interp_path [some 0, some 1, some 2, some 3, some 4, some 5, some 6,
      some 7, some 8, some 9, some 10] = InterpPath.idw ∧
    create_map_interp_path [some 0, some 1, some 2, some 3, some 4, some 5, some 6,
      some 7, some 8, some 9, some 10] "linear" = InterpPath.regularGrid "linear" ∧
    create_map_interp_path [some 0, some 1, some 2, some 3, some 4, some 5, some 6,
      some 7, some 8, some 9, some 10] "linear" ≠
      spec_interp_path [some 0, some 1, some 2, some 3, some 4, some 5, some 6,
        some 7, some 8, some 9, some 10] := by
  refine ⟨?_, ?_, ?_, ?_⟩ <;> with_unfolding_all decide

/-- **C1** (corrected).  Interpolation-path routing: `create_map`
never uses the IDW strategy — a column with more than 10 distinct
non-NaN values is resampled by the Grid-Resampling Interpolator with
the configured method (default `linear`), and only a column with at
most 10 distinct values forces that resampler's nearest-value mode.
On the nearest path no blended value appears: every output grid cell
is either the NaN sentinel (outside the source axis spans) or exactly
one of the input station values, and when the stations are non-empty
with no NaN values, every in-range cell equals some station's value. -/
theorem create_map_discrete_routing :
    (∀ (values : List (Option ℚ)) (cfgMethod : String),
      create_map_interp_path values cfgMethod ≠ InterpPath.idw) ∧
    (∀ (values : List (Option ℚ)) (cfgMethod : String),
      10 < distinctCount values →
      create_map_interp_path values cfgMethod = InterpPath.regularGrid cfgMethod) ∧
    (∀ (values : List (Option ℚ)) (cfgMethod : String),
      distinctCount values ≤ 10 →
      create_map_interp_path values cfgMethod = InterpPath.regularGrid "nearest") ∧
    (∀ (pts : List StaPt) (qlat qlon : ℚ),
      interpolate_regular_grid_nearest pts qlat qlon = none ∨
      ∃ p ∈ pts, interpolate_regular_grid_nearest pts qlat qlon = p.val) ∧
    (∀ (pts : List StaPt) (qlat qlon : ℚ), pts ≠ [] →
      (∀ p ∈ pts, p.val ≠ none) →
      (inBoundsAxis (uLat pts) qlat && inBoundsAxis (uLon pts) qlon) = true →
      ∃ p ∈ pts, interpolate_regular_grid_nearest pts qlat qlon = p.val) := by
  refine ⟨?_, ?_, ?_, ?_, ?_⟩
  · intro values cfgMethod h
    cases h
  · intro values cfgMethod h
    have hd : is_discrete values = false := by
      rw [is_discrete]
      simp [Nat.not_le.mpr h]
    rw [create_map_interp_path, hd]
    rfl
  · intro values cfgMethod h
    have hd : is_discrete values = true := by
      rw [is_discrete]
      simp [h]
    rw [create_map_interp_path, hd]
    rfl
  · intro pts qlat qlon
    rw [interpolate_regular_grid_nearest]
    split_ifs with hb
    · exact filledVal_mem pts _ _
    · exact Or.inl rfl
  · intro pts qlat qlon hne hval hb
    rw [interpolate_regular_grid_nearest, if_pos hb]
    exact filledVal_mem_strong pts _ _ hne hval

/-- Witness for C1: the routing theorem applied to a three-value
discrete column (which must take the nearest path) and the membership
conjunct applied to a single station queried at its own location. -/
theorem create_map_discrete_routing_witness :
    create_map_interp_path [some 1, some 2, some 3] "linear" =
      InterpPath.regularGrid "nearest" ∧
    (interpolate_regular_grid_nearest [{ lon := 0, lat := 0, val := some 1 }] 0 0 = none ∨
      ∃ p ∈ [({ lon := 0, lat := 0, val := some 1 } : StaPt)],
        interpolate_regular_grid_nearest [{ lon := 0, lat := 0, val := some 1 }] 0 0 = p.val) :=
  ⟨create_map_discrete_routing.2.2.1 [some 1, some 2, some 3] "linear"
      (by with_unfolding_all decide),
   create_map_discrete_routing.2.2.2.1 [{ lon := 0, lat := 0, val := some 1 }] 0 0⟩

end CreateMapIDW
